import Mathlib

/-!
Verification of the pgdev-web Thread Origin Resolver specification.

The repository ships the frontend plumbing (src/frontend/src/api/client.ts and
the two App component variants) and a README describing the crawl strategies;
the resolver core itself (Ledger, Classifier, Expander, Registry, Orchestrator)
is specified but not present under src/, so those components are modelled
from the spec, faithfully to its words, and the claims are settled against
that model.  The frontend functions are embedded directly from the TypeScript
sources.
-/

/-- Modelled from the spec (§3): MessageId is an opaque, globally unique,
comparable, hashable identifier; embedded as a natural number surrogate. -/
abbrev MessageId : Type := Nat

/-- Modelled from the spec (§3): ThreadRef identifies a thread page. -/
abbrev ThreadRef : Type := Nat

/-- Modelled from the spec (§3): ListingEntry is a row of the thread listing.
The candidateMessageId field is the entry's own message id "when derivable
directly from the listing without a fetch" (§4.5 step 1). -/
structure ListingEntry where
  threadRef : ThreadRef
  subjectText : String
  authorDisplay : String
  timestamp : Nat
  replyMarked : Bool
  candidateMessageId : MessageId
deriving DecidableEq

/-- Modelled from the spec (§3): ThreadMessage, produced by the Thread
Expander. -/
structure ThreadMessage where
  messageId : MessageId
  authorDisplay : String
  timestamp : Nat
  subjectText : String
  positionInThread : Nat
deriving DecidableEq, Inhabited

/-- Modelled from the spec (§3): OriginRecord, the resolved output, one per
distinct thread. -/
structure OriginRecord where
  threadRef : ThreadRef
  messageId : MessageId
  subjectText : String
  authorDisplay : String
  timestamp : Nat
deriving DecidableEq

/-- Modelled from the spec (§3): the Ledger is a mutable set of MessageId. -/
abbrev Ledger : Type := Finset MessageId

/-- Modelled from the spec (§4.3): `contains(id)` is the read-only membership
test on the Ledger. -/
def contains (l : Ledger) (id : MessageId) : Bool :=
  decide (id ∈ l)

/-- Modelled from the spec (§4.3): `testAndInsert(id)` — if `id` is absent,
insert it and return `false` ("was new"); if present, return `true` ("was
already known") without mutating.  The sequential model realises the atomic
primitive as a single state-transition function. -/
def testAndInsert (l : Ledger) (id : MessageId) : Bool × Ledger :=
  if id ∈ l then (true, l) else (false, insert id l)

/-- Modelled from the spec (§4.3): `bulkClaim(ids)` registers every id of an
expanded thread, returning the "already known" flags aligned with input
order. -/
def bulkClaim (l : Ledger) : List MessageId → List Bool × Ledger
  | [] => ([], l)
  | id :: rest =>
      let r := testAndInsert l id
      let rs := bulkClaim r.2 rest
      (r.1 :: rs.1, rs.2)

/-- Modelled from the spec (§4.1): the classifier's tagged-variant result. -/
inductive Classification where
  | LikelyOrigin
  | LikelyReply
deriving DecidableEq

/-- Modelled from the spec (§4.1): `classify(entry)` — `LikelyReply` iff
`entry.replyMarked` is true; otherwise `LikelyOrigin` (the README's "fast
approach": filter out titles carrying a reply marker). -/
def classify (e : ListingEntry) : Classification :=
  if e.replyMarked then .LikelyReply else .LikelyOrigin

/-- Modelled from the spec (§4.2, §7): error kinds of the Thread Expander. -/
inductive ExpandError where
  | FetchError
  | EmptyThreadError
deriving DecidableEq

/-- Modelled from the spec (§6): the Thread Expander boundary, a fixed mapping
from thread references to either an error or the ordered message sequence. -/
abbrev Expander : Type := ThreadRef → Except ExpandError (List ThreadMessage)

/-- Modelled from the spec (§4.2): a raw fetched message before the Expander
assigns its ordinal position; the transport yields them in thread order. -/
structure RawMessage where
  messageId : MessageId
  authorDisplay : String
  timestamp : Nat
  subjectText : String
deriving DecidableEq

/-- Modelled from the spec (§4.2): `expand(threadRef)` over a transport
`fetch` (`none` models transport failure — network, timeout, malformed page).
It fails with FetchError on transport failure, with EmptyThreadError when the
fetched sequence is empty, and otherwise returns the messages with
`positionInThread` assigned ascending from 0. -/
def expand (fetch : ThreadRef → Option (List RawMessage)) (t : ThreadRef) :
    Except ExpandError (List ThreadMessage) :=
  match fetch t with
  | none => .error .FetchError
  | some [] => .error .EmptyThreadError
  | some raws =>
      .ok (raws.enum.map fun p =>
        ⟨p.2.messageId, p.2.authorDisplay, p.2.timestamp, p.2.subjectText, p.1⟩)

/-- Registry lookup: first record stored for a threadRef, if any. -/
def regFind (reg : List (ThreadRef × OriginRecord)) (tr : ThreadRef) :
    Option OriginRecord :=
  match reg with
  | [] => none
  | (tr0, rec0) :: rest => if tr0 = tr then some rec0 else regFind rest tr

/-- Modelled from the spec (§4.5, §7, §9): the session context object holding
the process-wide mutable state — the Ledger and Origin Registry — together
with the session report lists (cross-references, registry-conflict audit
entries, unresolved entries) and the trace of fully expanded threads and
fast-path-claimed ids. -/
structure SessionState where
  ledger : Ledger
  registry : List (ThreadRef × OriginRecord)
  crossRefs : List (ThreadRef × MessageId)
  conflicts : List (ThreadRef × OriginRecord)
  unresolved : List (ThreadRef × ExpandError)
  expandedThreads : List ThreadRef
  fastClaimed : List MessageId
deriving DecidableEq

/-- The empty session state at the start of a crawl session. -/
def initState : SessionState := ⟨∅, [], [], [], [], [], []⟩

/-- Modelled from the spec (§4.4): `put(threadRef, record)` — write-once per
threadRef; a second put with a different messageId is a RegistryConflict:
the write is rejected, an audit entry is produced, and the first committed
record stands (first-writer-wins).  A re-put of the same messageId is a
no-op. -/
def registryPut (st : SessionState) (tr : ThreadRef) (rec : OriginRecord) :
    SessionState :=
  match regFind st.registry tr with
  | none => { st with registry := st.registry ++ [(tr, rec)] }
  | some old =>
      if old.messageId = rec.messageId then st
      else { st with conflicts := st.conflicts ++ [(tr, rec)] }

/-- OriginRecord built from a fast-path listing entry (§4.5 step 2). -/
def recordFromEntry (e : ListingEntry) : OriginRecord :=
  ⟨e.threadRef, e.candidateMessageId, e.subjectText, e.authorDisplay, e.timestamp⟩

/-- OriginRecord built from a thread's candidate origin message (§4.5 step 2). -/
def recordFromMessage (tr : ThreadRef) (m : ThreadMessage) : OriginRecord :=
  ⟨tr, m.messageId, m.subjectText, m.authorDisplay, m.timestamp⟩

/-- Modelled from the spec (§4.5 steps 2-4): full expansion followed by
bulkClaim and commit.  On FetchError or an empty thread the entry is recorded
Unresolved and no ledger id is claimed (§5: all-or-nothing).  After a
successful expansion every returned id is claimed; if the candidate origin id
was already known the thread is recorded as a cross-reference, otherwise its
OriginRecord is committed. -/
def expandAndCommit (E : Expander) (st : SessionState) (e : ListingEntry) :
    SessionState :=
  match E e.threadRef with
  | .error err => { st with unresolved := st.unresolved ++ [(e.threadRef, err)] }
  | .ok [] =>
      { st with unresolved := st.unresolved ++ [(e.threadRef, .EmptyThreadError)] }
  | .ok (m0 :: rest) =>
      let ids := (m0 :: rest).map ThreadMessage.messageId
      let res := bulkClaim st.ledger ids
      let st1 := { st with
        ledger := res.2
        expandedThreads := st.expandedThreads ++ [e.threadRef] }
      if res.1.headI then
        { st1 with crossRefs := st1.crossRefs ++ [(e.threadRef, m0.messageId)] }
      else
        registryPut st1 e.threadRef (recordFromMessage e.threadRef m0)

/-- Modelled from the spec (§4.5): processing of one ListingEntry by the
Resolver Orchestrator.  Step 1: skip when the candidate id is already in the
Ledger.  Step 2: classify; a LikelyOrigin entry is committed directly after
registering its id by testAndInsert, falling through to full expansion on a
classifier/ledger disagreement; a LikelyReply entry goes to full expansion. -/
def processEntry (E : Expander) (st : SessionState) (e : ListingEntry) :
    SessionState :=
  if contains st.ledger e.candidateMessageId then st
  else
    match classify e with
    | .LikelyReply => expandAndCommit E st e
    | .LikelyOrigin =>
        let r := testAndInsert st.ledger e.candidateMessageId
        if r.1 then expandAndCommit E { st with ledger := r.2 } e
        else
          registryPut
            { st with
              ledger := r.2
              fastClaimed := st.fastClaimed ++ [e.candidateMessageId] }
            e.threadRef (recordFromEntry e)

/-- Modelled from the spec (§4.5): a session run of the Resolver Orchestrator
over the entries yielded by the Listing Source, in arrival order. -/
def resolveSession (E : Expander) (entries : List ListingEntry)
    (st : SessionState) : SessionState :=
  entries.foldl (processEntry E) st

/-- Message-id set contributed by a thread according to the fixed Expander
data (empty for failing threads). -/
def idsOf (E : Expander) (t : ThreadRef) : Finset MessageId :=
  match E t with
  | .error _ => ∅
  | .ok msgs => (msgs.map ThreadMessage.messageId).toFinset

/-- Union of the messageId sets of a list of threads, as stated by the
spec's Ledger-content invariant ("the union of all ThreadMessage.messageId
values from every thread fully expanded so far"). -/
def unionExpanded (E : Expander) (ts : List ThreadRef) : Finset MessageId :=
  ts.foldl (fun acc t => acc ∪ idsOf E t) ∅

/-- The ids actually registered in the Ledger during a session: the ids of
the fully expanded threads together with the candidate ids claimed on the
fast (LikelyOrigin) path. -/
def ledgerSpec (E : Expander) (st : SessionState) : Finset MessageId :=
  st.fastClaimed.toFinset ∪ unionExpanded E st.expandedThreads

/-- An entry is settled with respect to a ledger content when reprocessing it
can no longer change the Ledger or the Registry: either its candidate id is
already known (step 1 skips it), or it is reply-marked and every id its
expansion would contribute is already claimed. -/
def settled (E : Expander) (L : Ledger) (e : ListingEntry) : Prop :=
  e.candidateMessageId ∈ L ∨
    (e.replyMarked = true ∧
      match E e.threadRef with
      | .error _ => True
      | .ok msgs => ∀ m ∈ msgs, m.messageId ∈ L)

-- Frontend embedding (src/frontend/src/api/client.ts, src/unnamed/part_000,
-- src/unnamed/part_001)

/-- A calendar date-time as consumed by the date-fns `format` call. -/
structure DateTime where
  year : Nat
  month : Nat
  day : Nat
  hour : Nat
  minute : Nat
  second : Nat
deriving DecidableEq

/-- Zero-pad to two digits, as the date-fns tokens MM, dd, HH, mm, ss do. -/
def pad2 (n : Nat) : String :=
  if n < 10 then "0" ++ toString n else toString n

/-- Zero-pad to four digits, as the date-fns token yyyy does. -/
def pad4 (n : Nat) : String :=
  if n < 10 then "000" ++ toString n
  else if n < 100 then "00" ++ toString n
  else if n < 1000 then "0" ++ toString n
  else toString n

/-- Embedded from client.ts: the date-fns call
format(date, yyyy-MM-dd HH:mm:ss) — zero-padded calendar fields,
24-hour clock. -/
def formatYmdHms (d : DateTime) : String :=
  pad4 d.year ++ "-" ++ pad2 d.month ++ "-" ++ pad2 d.day ++ " " ++
    pad2 d.hour ++ ":" ++ pad2 d.minute ++ ":" ++ pad2 d.second

/-- Embedded from client.ts: the EmailThread response shape. -/
structure EmailThread where
  id : String
  subject : String
  datetime : String
  author : String
deriving DecidableEq

/-- Embedded from client.ts: the EmailThreadDetail response shape. -/
structure EmailThreadDetail where
  id : String
  subject : String
  datetime : String
  author_name : String
  author_email : String
  content : String
deriving DecidableEq

/-- An HTTP GET request as issued by axios.get(url, \x7b params \x7d): the URL
and the query parameters in order. -/
structure ApiRequest where
  url : String
  params : List (String × String)
deriving DecidableEq

/-- Embedded from client.ts: the API base URL constant. -/
def API_BASE_URL : String := "http://localhost:3000/api"

/-- Embedded from client.ts getActiveSubjects.  The axios transport is
abstracted as the function httpGet; the result pairs the value returned to
the caller (response.data, unchanged) with the list of requests issued. -/
def getActiveSubjects (httpGet : ApiRequest → List EmailThreadDetail)
    (startDate endDate : DateTime) :
    List EmailThreadDetail × List ApiRequest :=
  let ps := [("start_date", formatYmdHms startDate),
             ("end_date", formatYmdHms endDate)]
  let req : ApiRequest := ⟨API_BASE_URL ++ "/active-subjects", ps⟩
  (httpGet req, [req])

/-- Embedded from client.ts getNewSubjects, analogously. -/
def getNewSubjects (httpGet : ApiRequest → List EmailThread)
    (startDate endDate : DateTime) :
    List EmailThread × List ApiRequest :=
  let ps := [("start_date", formatYmdHms startDate),
             ("end_date", formatYmdHms endDate)]
  let req : ApiRequest := ⟨API_BASE_URL ++ "/new-subjects", ps⟩
  (httpGet req, [req])

/-- A state-affecting step of the App component's fetch effect: the React
setter calls and the console.error call, in program order. -/
inductive AppAction where
  | setActiveSubjects (v : List EmailThreadDetail)
  | setNewSubjects (v : List EmailThread)
  | setLoading (b : Bool)
  | logError (msg : String)
deriving DecidableEq

/-- The App component's state hooks. -/
structure AppState where
  activeSubjects : List EmailThreadDetail
  newSubjects : List EmailThread
  loading : Bool
deriving DecidableEq

/-- useState initial values: both lists empty, loading true. -/
def initialAppState : AppState := ⟨[], [], true⟩

/-- React setter semantics of one action. -/
def applyAction (st : AppState) : AppAction → AppState
  | .setActiveSubjects v => { st with activeSubjects := v }
  | .setNewSubjects v => { st with newSubjects := v }
  | .setLoading b => { st with loading := b }
  | .logError _ => st

/-- Running a sequence of actions over a state. -/
def runActions (st : AppState) (acts : List AppAction) : AppState :=
  acts.foldl applyAction st

/-- Embedded from src/unnamed/part_000 App fetchData: the awaited
Promise.all of getActiveSubjects and getNewSubjects settles all-or-nothing
(fetchResult); on success both list setters run then the finally block sets
loading false; on failure the catch logs and the finally block sets loading
false, with no setter for either list. -/
def fetchDataActions0
    (fetchResult : Except String (List EmailThreadDetail × List EmailThread)) :
    List AppAction :=
  match fetchResult with
  | .ok (activeData, newData) =>
      [.setActiveSubjects activeData, .setNewSubjects newData,
       .setLoading false]
  | .error msg =>
      [.logError ("Error fetching data: " ++ msg), .setLoading false]

/-- Embedded from src/unnamed/part_001 App fetchData: Promise.all of
getNewSubjects alone; only the newSubjects setter runs on success. -/
def fetchDataActions1 (fetchResult : Except String (List EmailThread)) :
    List AppAction :=
  match fetchResult with
  | .ok newData => [.setNewSubjects newData, .setLoading false]
  | .error msg =>
      [.logError ("Error fetching data: " ++ msg), .setLoading false]

/-- A JS Date value abstracted to an epoch-day timeline; the App components
use setDate(getDate() - k), which JS Date normalizes to the instant exactly
k days earlier. -/
abbrev JsDate : Type := Int

/-- An API-client call issued by the App fetch effect, with its window. -/
inductive ApiCall where
  | activeSubjects (startDate endDate : JsDate)
  | newSubjects (startDate endDate : JsDate)
deriving DecidableEq

/-- Embedded from src/unnamed/part_000 App fetchData: both clients are
called over the last-7-days window. -/
def appFetchCalls0 (now : JsDate) : List ApiCall :=
  [.activeSubjects (now - 7) now, .newSubjects (now - 7) now]

/-- Embedded from src/unnamed/part_001 App fetchData: only getNewSubjects is
called, over the last-1-day window. -/
def appFetchCalls1 (now : JsDate) : List ApiCall :=
  [.newSubjects (now - 1) now]

/-- Recognizer for calls to the getActiveSubjects client. -/
def isActiveSubjectsCall : ApiCall → Bool
  | .activeSubjects _ _ => true
  | .newSubjects _ _ => false

/-- Recognizer for setLoading actions. -/
def isSetLoading : AppAction → Bool
  | .setLoading _ => true
  | _ => false

/-- Recognizer for setActiveSubjects actions. -/
def isSetActiveSubjects : AppAction → Bool
  | .setActiveSubjects _ => true
  | _ => false

-- Concrete data for witnesses and counterexamples

/-- A fast-path listing entry: not reply-marked, candidate id 5. -/
def exEntry : ListingEntry := ⟨0, "Feature X", "alice", 0, false, 5⟩

/-- An Expander whose transport always fails. -/
def exFailExpander : Expander := fun _ => .error .FetchError

/-- A reply-marked listing entry on thread 1, candidate id 9. -/
def exReplyEntry : ListingEntry := ⟨1, "Re: Feature X", "bob", 1, true, 9⟩

/-- A concrete transport: thread 0 fails, thread 1 is empty, thread 2 holds
two messages. -/
def exFetch : ThreadRef → Option (List RawMessage)
  | 0 => none
  | 1 => some []
  | _ => some [⟨7, "alice", 0, "Feature X"⟩, ⟨8, "bob", 1, "Re: Feature X"⟩]

/-- A concrete resolution for thread 0, origin message 5. -/
def exRecord : OriginRecord := ⟨0, 5, "Feature X", "alice", 0⟩

/-- A competing resolution for thread 0 proposing a different origin, 6. -/
def exRecord2 : OriginRecord := ⟨0, 6, "Feature X again", "carol", 2⟩

-- Basic Ledger lemmas

theorem contains_eq_true_iff (l : Ledger) (id : MessageId) :
    contains l id = true ↔ id ∈ l := by
  simp [contains]

theorem testAndInsert_of_mem (l : Ledger) (id : MessageId) (h : id ∈ l) :
    testAndInsert l id = (true, l) := by
  simp [testAndInsert, h]

theorem testAndInsert_of_not_mem (l : Ledger) (id : MessageId) (h : ¬ id ∈ l) :
    testAndInsert l id = (false, insert id l) := by
  simp [testAndInsert, h]

/-- C1: testAndInsert behaves as the atomic test-and-insert primitive: on an
absent id it inserts the id and returns false ("was new"); on a present id it
returns true ("was already known") and leaves the Ledger unchanged.  In this
sequential embedding the whole operation is a single state transition, which
is the atomicity guarantee the spec demands. -/
theorem testAndInsert_spec (l : Ledger) (id : MessageId) :
    (¬ id ∈ l →
      testAndInsert l id = (false, insert id l) ∧
      id ∈ (testAndInsert l id).2) ∧
    (id ∈ l → testAndInsert l id = (true, l)) := by
  constructor
  · intro h
    refine ⟨testAndInsert_of_not_mem l id h, ?_⟩
    rw [testAndInsert_of_not_mem l id h]
    exact Finset.mem_insert_self id l
  · intro h
    exact testAndInsert_of_mem l id h

/-- C1 witness: the two behaviours at concrete inputs. -/
theorem testAndInsert_spec_witness :
    (testAndInsert ({1, 2} : Finset MessageId) 3 =
      (false, insert (3 : MessageId) ({1, 2} : Finset MessageId)) ∧
      (3 : MessageId) ∈ (testAndInsert ({1, 2} : Finset MessageId) 3).2) ∧
    testAndInsert ({1, 2} : Finset MessageId) 1 = (true, ({1, 2} : Finset MessageId)) :=
  ⟨(testAndInsert_spec ({1, 2} : Finset MessageId) 3).1 (by decide),
   (testAndInsert_spec ({1, 2} : Finset MessageId) 1).2 (by decide)⟩

/-- C4: classify is a pure function of the ListingEntry (a total Lean function,
hence free of I/O and side effects) returning LikelyReply exactly when
entry.replyMarked is true and LikelyOrigin otherwise. -/
theorem classify_spec (e : ListingEntry) :
    (classify e = .LikelyReply ↔ e.replyMarked = true) ∧
    (classify e = .LikelyOrigin ↔ e.replyMarked = false) := by
  unfold classify
  cases h : e.replyMarked <;> simp

theorem testAndInsert_fst (l : Ledger) (id : MessageId) :
    (testAndInsert l id).1 = decide (id ∈ l) := by
  by_cases h : id ∈ l <;> simp [testAndInsert, h]

theorem bulkClaim_cons (l : Ledger) (id : MessageId) (rest : List MessageId) :
    bulkClaim l (id :: rest) =
      ((testAndInsert l id).1 :: (bulkClaim (testAndInsert l id).2 rest).1,
       (bulkClaim (testAndInsert l id).2 rest).2) := rfl

theorem bulkClaim_snd_eq_union (ids : List MessageId) (l : Ledger) :
    (bulkClaim l ids).2 = l ∪ ids.toFinset := by
  induction ids generalizing l with
  | nil => simp [bulkClaim]
  | cons id rest ih =>
      rw [bulkClaim_cons]
      by_cases h : id ∈ l
      · rw [testAndInsert_of_mem l id h]
        dsimp only
        rw [ih, List.toFinset_cons, Finset.union_insert,
          Finset.insert_eq_self.mpr (Finset.mem_union_left _ h)]
      · rw [testAndInsert_of_not_mem l id h]
        dsimp only
        rw [ih, List.toFinset_cons, Finset.insert_union, Finset.union_insert]

theorem subset_bulkClaim_snd (l : Ledger) (ids : List MessageId) :
    l ⊆ (bulkClaim l ids).2 := by
  rw [bulkClaim_snd_eq_union]
  exact Finset.subset_union_left

theorem mem_bulkClaim_snd_of_mem (l : Ledger) (ids : List MessageId)
    (id : MessageId) (h : id ∈ ids) : id ∈ (bulkClaim l ids).2 := by
  rw [bulkClaim_snd_eq_union]
  exact Finset.mem_union_right _ (List.mem_toFinset.mpr h)

theorem bulkClaim_snd_of_all_mem (l : Ledger) (ids : List MessageId)
    (h : ∀ id ∈ ids, id ∈ l) : (bulkClaim l ids).2 = l := by
  rw [bulkClaim_snd_eq_union]
  exact Finset.union_eq_left.mpr fun id hid => h id (List.mem_toFinset.mp hid)

theorem bulkClaim_fst_headI (l : Ledger) (id : MessageId)
    (rest : List MessageId) :
    (bulkClaim l (id :: rest)).1.headI = (testAndInsert l id).1 := rfl

theorem registryPut_ledger (st : SessionState) (tr : ThreadRef)
    (rec : OriginRecord) : (registryPut st tr rec).ledger = st.ledger := by
  unfold registryPut
  cases regFind st.registry tr with
  | none => rfl
  | some old =>
      by_cases h : old.messageId = rec.messageId <;> simp [h]

theorem registryPut_expandedThreads (st : SessionState) (tr : ThreadRef)
    (rec : OriginRecord) :
    (registryPut st tr rec).expandedThreads = st.expandedThreads := by
  unfold registryPut
  cases regFind st.registry tr with
  | none => rfl
  | some old =>
      by_cases h : old.messageId = rec.messageId <;> simp [h]

theorem registryPut_fastClaimed (st : SessionState) (tr : ThreadRef)
    (rec : OriginRecord) :
    (registryPut st tr rec).fastClaimed = st.fastClaimed := by
  unfold registryPut
  cases regFind st.registry tr with
  | none => rfl
  | some old =>
      by_cases h : old.messageId = rec.messageId <;> simp [h]

theorem processEntry_of_mem (E : Expander) (st : SessionState)
    (e : ListingEntry) (h : e.candidateMessageId ∈ st.ledger) :
    processEntry E st e = st := by
  unfold processEntry
  simp [contains, h]

theorem processEntry_of_not_mem_reply (E : Expander) (st : SessionState)
    (e : ListingEntry) (h : ¬ e.candidateMessageId ∈ st.ledger)
    (hr : e.replyMarked = true) :
    processEntry E st e = expandAndCommit E st e := by
  unfold processEntry
  simp [contains, h, classify, hr]

theorem processEntry_of_not_mem_origin (E : Expander) (st : SessionState)
    (e : ListingEntry) (h : ¬ e.candidateMessageId ∈ st.ledger)
    (hr : e.replyMarked = false) :
    processEntry E st e =
      registryPut
        { st with
          ledger := insert e.candidateMessageId st.ledger
          fastClaimed := st.fastClaimed ++ [e.candidateMessageId] }
        e.threadRef (recordFromEntry e) := by
  unfold processEntry
  simp [contains, h, classify, hr, testAndInsert_of_not_mem _ _ h]

theorem expandAndCommit_error (E : Expander) (st : SessionState)
    (e : ListingEntry) (err : ExpandError) (hE : E e.threadRef = .error err) :
    expandAndCommit E st e =
      { st with unresolved := st.unresolved ++ [(e.threadRef, err)] } := by
  unfold expandAndCommit
  rw [hE]

theorem expandAndCommit_nil (E : Expander) (st : SessionState)
    (e : ListingEntry) (hE : E e.threadRef = .ok []) :
    expandAndCommit E st e =
      { st with
        unresolved := st.unresolved ++ [(e.threadRef, .EmptyThreadError)] } := by
  unfold expandAndCommit
  rw [hE]

theorem expandAndCommit_cons (E : Expander) (st : SessionState)
    (e : ListingEntry) (m0 : ThreadMessage) (rest : List ThreadMessage)
    (hE : E e.threadRef = .ok (m0 :: rest)) :
    expandAndCommit E st e =
      (if (bulkClaim st.ledger
            ((m0 :: rest).map ThreadMessage.messageId)).1.headI then
        { st with
          ledger := (bulkClaim st.ledger
            ((m0 :: rest).map ThreadMessage.messageId)).2
          expandedThreads := st.expandedThreads ++ [e.threadRef]
          crossRefs := st.crossRefs ++ [(e.threadRef, m0.messageId)] }
      else
        registryPut
          { st with
            ledger := (bulkClaim st.ledger
              ((m0 :: rest).map ThreadMessage.messageId)).2
            expandedThreads := st.expandedThreads ++ [e.threadRef] }
          e.threadRef (recordFromMessage e.threadRef m0)) := by
  unfold expandAndCommit
  rw [hE]

theorem unionExpanded_append (E : Expander) (ts : List ThreadRef)
    (t : ThreadRef) :
    unionExpanded E (ts ++ [t]) = unionExpanded E ts ∪ idsOf E t := by
  unfold unionExpanded
  rw [List.foldl_append, List.foldl_cons, List.foldl_nil]

theorem resolveSession_nil (E : Expander) (st : SessionState) :
    resolveSession E [] st = st := rfl

theorem resolveSession_cons (E : Expander) (e : ListingEntry)
    (rest : List ListingEntry) (st : SessionState) :
    resolveSession E (e :: rest) st =
      resolveSession E rest (processEntry E st e) := rfl

theorem ledger_subset_processEntry (E : Expander) (st : SessionState)
    (e : ListingEntry) : st.ledger ⊆ (processEntry E st e).ledger := by
  by_cases hc : e.candidateMessageId ∈ st.ledger
  · rw [processEntry_of_mem E st e hc]
  · cases hr : e.replyMarked with
    | false =>
        rw [processEntry_of_not_mem_origin E st e hc hr, registryPut_ledger]
        exact Finset.subset_insert _ _
    | true =>
        rw [processEntry_of_not_mem_reply E st e hc hr]
        cases hE : E e.threadRef with
        | error err =>
            rw [expandAndCommit_error E st e err hE]
        | ok msgs =>
            cases msgs with
            | nil => rw [expandAndCommit_nil E st e hE]
            | cons m0 rest =>
                rw [expandAndCommit_cons E st e m0 rest hE]
                by_cases hb : (bulkClaim st.ledger
                    ((m0 :: rest).map ThreadMessage.messageId)).1.headI = true
                · rw [if_pos hb]
                  exact subset_bulkClaim_snd _ _
                · rw [if_neg hb, registryPut_ledger]
                  exact subset_bulkClaim_snd _ _

theorem processEntry_of_settled (E : Expander) (st : SessionState)
    (e : ListingEntry) (h : settled E st.ledger e) :
    (processEntry E st e).ledger = st.ledger ∧
    (processEntry E st e).registry = st.registry := by
  rcases h with h1 | ⟨hr, hm⟩
  · rw [processEntry_of_mem E st e h1]
    exact ⟨rfl, rfl⟩
  · by_cases hc : e.candidateMessageId ∈ st.ledger
    · rw [processEntry_of_mem E st e hc]
      exact ⟨rfl, rfl⟩
    · rw [processEntry_of_not_mem_reply E st e hc hr]
      cases hE : E e.threadRef with
      | error err =>
          rw [expandAndCommit_error E st e err hE]
          exact ⟨rfl, rfl⟩
      | ok msgs =>
          cases msgs with
          | nil =>
              rw [expandAndCommit_nil E st e hE]
              exact ⟨rfl, rfl⟩
          | cons m0 rest =>
              rw [hE] at hm
              have hm2 : ∀ m ∈ m0 :: rest, m.messageId ∈ st.ledger := hm
              have hall : ∀ id ∈ (m0 :: rest).map ThreadMessage.messageId,
                  id ∈ st.ledger := by
                intro id hid
                rcases List.mem_map.mp hid with ⟨m, hmem, rfl⟩
                exact hm2 m hmem
              have hhead : (bulkClaim st.ledger
                  ((m0 :: rest).map ThreadMessage.messageId)).1.headI = true := by
                rw [List.map_cons, bulkClaim_fst_headI, testAndInsert_fst,
                  decide_eq_true_eq]
                exact hm2 m0 (List.mem_cons_self m0 rest)
              rw [expandAndCommit_cons E st e m0 rest hE, if_pos hhead]
              exact ⟨bulkClaim_snd_of_all_mem st.ledger _ hall, rfl⟩

theorem settled_mono (E : Expander) (L L2 : Ledger) (e : ListingEntry)
    (hsub : L ⊆ L2) (h : settled E L e) : settled E L2 e := by
  rcases h with h1 | ⟨hr, hm⟩
  · exact Or.inl (hsub h1)
  · refine Or.inr ⟨hr, ?_⟩
    cases hE : E e.threadRef with
    | error err => trivial
    | ok msgs =>
        rw [hE] at hm
        have hm2 : ∀ m ∈ msgs, m.messageId ∈ L := hm
        exact fun m hmem => hsub (hm2 m hmem)

theorem settled_processEntry (E : Expander) (st : SessionState)
    (e : ListingEntry) : settled E (processEntry E st e).ledger e := by
  by_cases hc : e.candidateMessageId ∈ st.ledger
  · rw [processEntry_of_mem E st e hc]
    exact Or.inl hc
  · cases hr : e.replyMarked with
    | false =>
        rw [processEntry_of_not_mem_origin E st e hc hr, registryPut_ledger]
        exact Or.inl (Finset.mem_insert_self _ _)
    | true =>
        rw [processEntry_of_not_mem_reply E st e hc hr]
        refine Or.inr ⟨hr, ?_⟩
        cases hE : E e.threadRef with
        | error err => trivial
        | ok msgs =>
            cases msgs with
            | nil => exact fun m hmem => absurd hmem (List.not_mem_nil m)
            | cons m0 rest =>
                intro m hmem
                rw [expandAndCommit_cons E st e m0 rest hE]
                by_cases hb : (bulkClaim st.ledger
                    ((m0 :: rest).map ThreadMessage.messageId)).1.headI = true
                · rw [if_pos hb]
                  exact mem_bulkClaim_snd_of_mem _ _ _
                    (List.mem_map_of_mem ThreadMessage.messageId hmem)
                · rw [if_neg hb, registryPut_ledger]
                  exact mem_bulkClaim_snd_of_mem _ _ _
                    (List.mem_map_of_mem ThreadMessage.messageId hmem)

theorem ledger_subset_resolveSession (E : Expander) (es : List ListingEntry)
    (st : SessionState) : st.ledger ⊆ (resolveSession E es st).ledger := by
  induction es generalizing st with
  | nil => exact Finset.Subset.refl _
  | cons e rest ih =>
      rw [resolveSession_cons]
      exact (ledger_subset_processEntry E st e).trans (ih (processEntry E st e))

theorem settled_all_resolveSession (E : Expander) (es : List ListingEntry)
    (st : SessionState) :
    ∀ e ∈ es, settled E (resolveSession E es st).ledger e := by
  induction es generalizing st with
  | nil => intro e he; exact absurd he (List.not_mem_nil e)
  | cons e0 rest ih =>
      intro e he
      rw [resolveSession_cons]
      rcases List.mem_cons.mp he with heq | hmem
      · subst heq
        exact settled_mono E _ _ e
          (ledger_subset_resolveSession E rest (processEntry E st e))
          (settled_processEntry E st e)
      · exact ih (processEntry E st e0) e hmem

theorem resolveSession_of_settled (E : Expander) (es : List ListingEntry)
    (st : SessionState) (h : ∀ e ∈ es, settled E st.ledger e) :
    (resolveSession E es st).ledger = st.ledger ∧
    (resolveSession E es st).registry = st.registry := by
  induction es generalizing st with
  | nil => exact ⟨rfl, rfl⟩
  | cons e0 rest ih =>
      have h0 := processEntry_of_settled E st e0 (h e0 (List.mem_cons_self e0 rest))
      have hrest : ∀ e ∈ rest, settled E (processEntry E st e0).ledger e := by
        intro e he
        rw [h0.1]
        exact h e (List.mem_cons_of_mem e0 he)
      have htail := ih (processEntry E st e0) hrest
      rw [resolveSession_cons]
      exact ⟨htail.1.trans h0.1, htail.2.trans h0.2⟩

/-- C2: re-resolution is idempotent — running the Resolver Orchestrator a
second time over the same fixed Listing Source entries and the same fixed
Thread Expander data leaves the Origin Registry contents exactly as the
first run produced them. -/
theorem resolveSession_idempotent (E : Expander) (entries : List ListingEntry)
    (st : SessionState) :
    (resolveSession E entries (resolveSession E entries st)).registry =
      (resolveSession E entries st).registry :=
  (resolveSession_of_settled E entries (resolveSession E entries st)
    (settled_all_resolveSession E entries st)).2

theorem ledgerSpec_processEntry (E : Expander) (st : SessionState)
    (e : ListingEntry) (h : st.ledger = ledgerSpec E st) :
    (processEntry E st e).ledger = ledgerSpec E (processEntry E st e) := by
  by_cases hc : e.candidateMessageId ∈ st.ledger
  · rw [processEntry_of_mem E st e hc]
    exact h
  · cases hr : e.replyMarked with
    | false =>
        rw [processEntry_of_not_mem_origin E st e hc hr, registryPut_ledger]
        unfold ledgerSpec
        rw [registryPut_fastClaimed, registryPut_expandedThreads]
        dsimp only
        rw [h]
        unfold ledgerSpec
        ext x
        simp only [Finset.mem_insert, Finset.mem_union, List.mem_toFinset,
          List.mem_append, List.mem_singleton]
        tauto
    | true =>
        rw [processEntry_of_not_mem_reply E st e hc hr]
        cases hE : E e.threadRef with
        | error err =>
            rw [expandAndCommit_error E st e err hE]
            exact h
        | ok msgs =>
            cases msgs with
            | nil =>
                rw [expandAndCommit_nil E st e hE]
                exact h
            | cons m0 rest =>
                have hids : idsOf E e.threadRef =
                    ((m0 :: rest).map ThreadMessage.messageId).toFinset := by
                  unfold idsOf
                  rw [hE]
                rw [expandAndCommit_cons E st e m0 rest hE]
                by_cases hb : (bulkClaim st.ledger
                    ((m0 :: rest).map ThreadMessage.messageId)).1.headI = true
                · rw [if_pos hb]
                  unfold ledgerSpec
                  dsimp only
                  rw [unionExpanded_append, hids, bulkClaim_snd_eq_union, h]
                  unfold ledgerSpec
                  rw [Finset.union_assoc]
                · rw [if_neg hb, registryPut_ledger]
                  unfold ledgerSpec
                  rw [registryPut_fastClaimed, registryPut_expandedThreads]
                  dsimp only
                  rw [unionExpanded_append, hids, bulkClaim_snd_eq_union, h]
                  unfold ledgerSpec
                  rw [Finset.union_assoc]

theorem ledgerSpec_resolveSession (E : Expander) (es : List ListingEntry)
    (st : SessionState) (h : st.ledger = ledgerSpec E st) :
    (resolveSession E es st).ledger = ledgerSpec E (resolveSession E es st) := by
  induction es generalizing st with
  | nil => exact h
  | cons e0 rest ih =>
      rw [resolveSession_cons]
      exact ih (processEntry E st e0) (ledgerSpec_processEntry E st e0 h)

/-- C3 counterexample: with the always-failing Expander and one non-reply
entry, the fast path registers the candidate id 5 by testAndInsert without
any thread expansion, so the Ledger holds an id although no thread was fully
expanded: the Ledger content is not the union of the messageId sets of the
threads expanded so far. -/
theorem ledger_eq_unionExpanded_false :
    ¬ ((resolveSession exFailExpander [exEntry] initState).ledger =
       unionExpanded exFailExpander
         (resolveSession exFailExpander [exEntry] initState).expandedThreads) := by
  decide

/-- C3 (amended): the Ledger only grows during a session — each processed
entry enlarges it or leaves it unchanged, nothing removes entries — and at
every point (after any list of processed entries, from any state already
described this way) its content equals the fast-path-claimed candidate ids
together with the union of the messageId sets of all threads fully expanded
so far. -/
theorem ledger_monotone_and_content (E : Expander) (es : List ListingEntry)
    (st : SessionState) :
    st.ledger ⊆ (resolveSession E es st).ledger ∧
    (st.ledger = ledgerSpec E st →
      (resolveSession E es st).ledger =
        ledgerSpec E (resolveSession E es st)) :=
  ⟨ledger_subset_resolveSession E es st, ledgerSpec_resolveSession E es st⟩

/-- C3 (amended) witness: the characterization applied to the one-entry
session from the empty initial state. -/
theorem ledger_monotone_and_content_witness :
    initState.ledger ⊆
      (resolveSession exFailExpander [exEntry] initState).ledger ∧
    (resolveSession exFailExpander [exEntry] initState).ledger =
      ledgerSpec exFailExpander
        (resolveSession exFailExpander [exEntry] initState) :=
  ⟨(ledger_monotone_and_content exFailExpander [exEntry] initState).1,
   (ledger_monotone_and_content exFailExpander [exEntry] initState).2
     (by decide)⟩

/-- C7: when the Thread Expander call for a reply-marked entry fails (timeout
or any FetchError), no message id from that attempted expansion is claimed:
the Ledger after processing the entry equals the Ledger before it
(all-or-nothing claiming per thread). -/
theorem failed_expansion_preserves_ledger (E : Expander) (st : SessionState)
    (e : ListingEntry) (err : ExpandError) (hr : e.replyMarked = true)
    (hE : E e.threadRef = .error err) :
    (processEntry E st e).ledger = st.ledger := by
  by_cases hc : e.candidateMessageId ∈ st.ledger
  · rw [processEntry_of_mem E st e hc]
  · rw [processEntry_of_not_mem_reply E st e hc hr,
      expandAndCommit_error E st e err hE]

/-- C7 witness: the failing expansion of the reply entry from the empty
state leaves the Ledger empty. -/
theorem failed_expansion_preserves_ledger_witness :
    (processEntry exFailExpander initState exReplyEntry).ledger =
      initState.ledger :=
  failed_expansion_preserves_ledger exFailExpander initState exReplyEntry
    .FetchError rfl rfl

theorem regFind_append_singleton_of_none
    (reg : List (ThreadRef × OriginRecord)) (tr : ThreadRef)
    (rec : OriginRecord) (h : regFind reg tr = none) :
    regFind (reg ++ [(tr, rec)]) tr = some rec := by
  induction reg with
  | nil => simp [regFind]
  | cons p rest ih =>
      obtain ⟨tr0, rec0⟩ := p
      rw [List.cons_append]
      unfold regFind at h ⊢
      by_cases h0 : tr0 = tr
      · rw [if_pos h0] at h
        cases h
      · rw [if_neg h0] at h ⊢
        exact ih h

theorem registryPut_of_none (st : SessionState) (tr : ThreadRef)
    (rec : OriginRecord) (h : regFind st.registry tr = none) :
    registryPut st tr rec =
      { st with registry := st.registry ++ [(tr, rec)] } := by
  unfold registryPut
  rw [h]

theorem registryPut_of_some_ne (st : SessionState) (tr : ThreadRef)
    (rec old : OriginRecord) (h : regFind st.registry tr = some old)
    (hne : old.messageId ≠ rec.messageId) :
    registryPut st tr rec =
      { st with conflicts := st.conflicts ++ [(tr, rec)] } := by
  unfold registryPut
  rw [h]
  exact if_neg hne

/-- C6: first-writer-wins in the Origin Registry — once a record is committed
for a threadRef, a second put proposing a different messageId is rejected (the
registry is unchanged and the lookup still yields the first record) and is
reported as a RegistryConflict audit entry. -/
theorem registryPut_first_writer_wins (st : SessionState) (tr : ThreadRef)
    (rec rec2 : OriginRecord) (h0 : regFind st.registry tr = none)
    (hne : rec2.messageId ≠ rec.messageId) :
    regFind (registryPut (registryPut st tr rec) tr rec2).registry tr =
      some rec ∧
    (registryPut (registryPut st tr rec) tr rec2).registry =
      (registryPut st tr rec).registry ∧
    (registryPut (registryPut st tr rec) tr rec2).conflicts =
      (registryPut st tr rec).conflicts ++ [(tr, rec2)] := by
  have h2 : regFind (registryPut st tr rec).registry tr = some rec := by
    rw [registryPut_of_none st tr rec h0]
    exact regFind_append_singleton_of_none st.registry tr rec h0
  have hne2 : rec.messageId ≠ rec2.messageId := fun hx => hne hx.symm
  rw [registryPut_of_some_ne (registryPut st tr rec) tr rec2 rec h2 hne2]
  exact ⟨h2, rfl, rfl⟩

/-- C6 witness: committing record 5 for thread 0 and then proposing record 6
for thread 0 leaves record 5 standing and produces the audit entry. -/
theorem registryPut_first_writer_wins_witness :
    regFind (registryPut (registryPut initState 0 exRecord) 0
        exRecord2).registry 0 = some exRecord ∧
    (registryPut (registryPut initState 0 exRecord) 0 exRecord2).registry =
      (registryPut initState 0 exRecord).registry ∧
    (registryPut (registryPut initState 0 exRecord) 0 exRecord2).conflicts =
      (registryPut initState 0 exRecord).conflicts ++ [(0, exRecord2)] :=
  registryPut_first_writer_wins initState 0 exRecord exRecord2 rfl (by decide)

/-- C5: the Thread Expander has exactly three outcomes — on transport failure
it fails with FetchError; it fails with EmptyThreadError exactly when the
fetched sequence is empty; and otherwise it returns a nonempty sequence of
ThreadMessage whose positions are 0,1,...,n-1 (hence ordered ascending by
positionInThread with the first element, the candidate origin, at
position 0). -/
theorem expand_spec (fetch : ThreadRef → Option (List RawMessage))
    (t : ThreadRef) :
    (fetch t = none → expand fetch t = .error .FetchError) ∧
    (expand fetch t = .error .EmptyThreadError ↔ fetch t = some []) ∧
    (∀ r rs, fetch t = some (r :: rs) →
      ∃ msgs, expand fetch t = .ok msgs ∧ msgs ≠ [] ∧
        msgs.map ThreadMessage.positionInThread = List.range msgs.length ∧
        msgs.headI.positionInThread = 0 ∧
        List.Sorted (· < ·) (msgs.map ThreadMessage.positionInThread)) := by
  refine ⟨?_, ⟨?_, ?_⟩, ?_⟩
  · intro h
    unfold expand
    rw [h]
  · intro h
    unfold expand at h
    cases hf : fetch t with
    | none =>
        rw [hf] at h
        simp at h
    | some raws =>
        cases raws with
        | nil => rfl
        | cons r rs =>
            rw [hf] at h
            simp at h
  · intro h
    unfold expand
    rw [h]
  · intro r rs h
    refine ⟨(r :: rs).enum.map (fun p =>
      ⟨p.2.messageId, p.2.authorDisplay, p.2.timestamp, p.2.subjectText,
        p.1⟩), ?_, ?_, ?_, ?_, ?_⟩
    · unfold expand
      rw [h]
    · simp
    · rw [List.map_map]
      rw [show (ThreadMessage.positionInThread ∘ fun p : Nat × RawMessage =>
        (⟨p.2.messageId, p.2.authorDisplay, p.2.timestamp, p.2.subjectText,
          p.1⟩ : ThreadMessage)) = Prod.fst from rfl]
      rw [List.enum_map_fst, List.length_map, List.enum_length]
    · rfl
    · rw [List.map_map]
      rw [show (ThreadMessage.positionInThread ∘ fun p : Nat × RawMessage =>
        (⟨p.2.messageId, p.2.authorDisplay, p.2.timestamp, p.2.subjectText,
          p.1⟩ : ThreadMessage)) = Prod.fst from rfl]
      rw [List.enum_map_fst]
      exact List.sorted_lt_range _

/-- C5 witness: the three outcomes of expand over the concrete transport —
thread 0 fails in transport, thread 1 is empty, thread 2 yields two
messages. -/
theorem expand_spec_witness :
    expand exFetch 0 = .error .FetchError ∧
    expand exFetch 1 = .error .EmptyThreadError ∧
    (∃ msgs, expand exFetch 2 = .ok msgs ∧ msgs ≠ [] ∧
      msgs.map ThreadMessage.positionInThread = List.range msgs.length ∧
      msgs.headI.positionInThread = 0 ∧
      List.Sorted (· < ·) (msgs.map ThreadMessage.positionInThread)) :=
  ⟨(expand_spec exFetch 0).1 rfl,
   (expand_spec exFetch 1).2.1.mpr rfl,
   (expand_spec exFetch 2).2.2 ⟨7, "alice", 0, "Feature X"⟩
     [⟨8, "bob", 1, "Re: Feature X"⟩] rfl⟩

/-- C8: for every pair of Date arguments, getActiveSubjects and
getNewSubjects each issue exactly one GET request to their respective
endpoint, carrying exactly the two query parameters start_date and end_date
formatted by the yyyy-MM-dd HH:mm:ss pattern from the corresponding
argument, and return the response body unchanged; concretely, the format
pattern renders 2023-04-01 09:05:30 for that calendar instant. -/
theorem api_subjects_request_spec
    (httpA : ApiRequest → List EmailThreadDetail)
    (httpN : ApiRequest → List EmailThread) (startDate endDate : DateTime) :
    (getActiveSubjects httpA startDate endDate).2 =
      [⟨API_BASE_URL ++ "/active-subjects",
        [("start_date", formatYmdHms startDate),
         ("end_date", formatYmdHms endDate)]⟩] ∧
    (getActiveSubjects httpA startDate endDate).1 =
      httpA ⟨API_BASE_URL ++ "/active-subjects",
        [("start_date", formatYmdHms startDate),
         ("end_date", formatYmdHms endDate)]⟩ ∧
    (getNewSubjects httpN startDate endDate).2 =
      [⟨API_BASE_URL ++ "/new-subjects",
        [("start_date", formatYmdHms startDate),
         ("end_date", formatYmdHms endDate)]⟩] ∧
    (getNewSubjects httpN startDate endDate).1 =
      httpN ⟨API_BASE_URL ++ "/new-subjects",
        [("start_date", formatYmdHms startDate),
         ("end_date", formatYmdHms endDate)]⟩ ∧
    formatYmdHms ⟨2023, 4, 1, 9, 5, 30⟩ = "2023-04-01 09:05:30" :=
  ⟨rfl, rfl, rfl, rfl, rfl⟩

/-- C9: in both App variants the fetch effect sets the loading flag to false
exactly once, as its final state update, whether the awaited requests
succeed or fail; and when a request fails, no list setter runs, so both
subject lists keep their initial empty values (only the error is logged). -/
theorem app_fetch_settles_loading_once
    (r0 : Except String (List EmailThreadDetail × List EmailThread))
    (r1 : Except String (List EmailThread)) :
    (fetchDataActions0 r0).filter isSetLoading = [.setLoading false] ∧
    (fetchDataActions0 r0).getLast? = some (.setLoading false) ∧
    (fetchDataActions1 r1).filter isSetLoading = [.setLoading false] ∧
    (fetchDataActions1 r1).getLast? = some (.setLoading false) ∧
    (∀ msg, runActions initialAppState (fetchDataActions0 (.error msg)) =
      ⟨[], [], false⟩) ∧
    (∀ msg, runActions initialAppState (fetchDataActions1 (.error msg)) =
      ⟨[], [], false⟩) := by
  refine ⟨?_, ?_, ?_, ?_, ?_, ?_⟩
  · cases r0 with
    | ok v => obtain ⟨a, n⟩ := v; rfl
    | error msg => rfl
  · cases r0 with
    | ok v => obtain ⟨a, n⟩ := v; rfl
    | error msg => rfl
  · cases r1 with
    | ok v => rfl
    | error msg => rfl
  · cases r1 with
    | ok v => rfl
    | error msg => rfl
  · intro msg; rfl
  · intro msg; rfl

theorem runActions_activeSubjects_of_none (acts : List AppAction)
    (h : ∀ a ∈ acts, isSetActiveSubjects a = false) (st : AppState) :
    (runActions st acts).activeSubjects = st.activeSubjects := by
  induction acts generalizing st with
  | nil => rfl
  | cons a rest ih =>
      have hrest : ∀ b ∈ rest, isSetActiveSubjects b = false :=
        fun b hb => h b (List.mem_cons_of_mem a hb)
      have hstep : (applyAction st a).activeSubjects = st.activeSubjects := by
        cases a with
        | setActiveSubjects v =>
            exact absurd (h _ (List.mem_cons_self _ _)) (by simp [isSetActiveSubjects])
        | setNewSubjects v => rfl
        | setLoading b => rfl
        | logError m => rfl
      calc (runActions (applyAction st a) rest).activeSubjects
          = (applyAction st a).activeSubjects := ih hrest (applyAction st a)
        _ = st.activeSubjects := hstep

/-- C10: in the App variant of src/unnamed/part_001 the fetch effect never
calls getActiveSubjects (its single call is getNewSubjects over the 1-day
window now-1..now, where the other variant uses the 7-day window now-7..now),
no setActiveSubjects action is issued for any outcome, and activeSubjects
equals the initial empty array after every prefix of the effect's actions. -/
theorem app_variant1_active_subjects_frame (now : JsDate)
    (r1 : Except String (List EmailThread)) :
    appFetchCalls1 now = [.newSubjects (now - 1) now] ∧
    (appFetchCalls1 now).filter isActiveSubjectsCall = [] ∧
    (fetchDataActions1 r1).filter isSetActiveSubjects = [] ∧
    (∀ k, (runActions initialAppState
      ((fetchDataActions1 r1).take k)).activeSubjects = []) ∧
    appFetchCalls0 now =
      [.activeSubjects (now - 7) now, .newSubjects (now - 7) now] := by
  refine ⟨rfl, rfl, ?_, ?_, rfl⟩
  · cases r1 with
    | ok v => rfl
    | error msg => rfl
  · intro k
    have hnone : ∀ a ∈ (fetchDataActions1 r1).take k,
        isSetActiveSubjects a = false := by
      intro a ha
      have ha2 := List.take_subset k (fetchDataActions1 r1) ha
      cases r1 with
      | ok v =>
          simp only [fetchDataActions1, List.mem_cons, List.not_mem_nil,
            or_false] at ha2
          rcases ha2 with rfl | rfl <;> rfl
      | error msg =>
          simp only [fetchDataActions1, List.mem_cons, List.not_mem_nil,
            or_false] at ha2
          rcases ha2 with rfl | rfl <;> rfl
    exact runActions_activeSubjects_of_none _ hnone initialAppState
